import Mathlib

/-!
Verification development for the Poker-Helper repository (src/main.py).

The Python source is shallowly embedded below.  Pure helper functions of the
hand evaluator become Lean functions on `Int`/`Char`; the mutable
`PokerHand`/`PokerGame` objects become structures with explicit functional
updates.  Python integers are modelled by `Int` (no overflow in Python),
Python `None` results of the evaluator by a dedicated `PyVal.vnone`
constructor, and operations that would raise (popping an empty deck,
constructing a hand over zero seats) return `Option`.
-/

/-- Python heterogeneous values returned by `score_five` in src/main.py:
the function can return `None` (when the input is not 5 cards), and its
second tuple component is sometimes an `int` (the straight and straight-flush
branches), sometimes a `tuple`, and in the flush branch a `list`. -/
inductive PyVal where
  | vnone : PyVal
  | vint : Int → PyVal
  | vtup : List PyVal → PyVal
  | vlist : List PyVal → PyVal

/-- Source `RANKS = "23456789TJQKA"` from src/main.py. -/
def RANKS : List Char := ['2', '3', '4', '5', '6', '7', '8', '9', 'T', 'J', 'Q', 'K', 'A']

/-- Source `SUITS = "cdhs"` from src/main.py. -/
def SUITS : List Char := ['c', 'd', 'h', 's']

/-- Source `card_to_str` from src/main.py: rank character is `RANKS[card_id % 13]`,
suit character is `SUITS[card_id // 13]`.  Card ids are 0..51 in every use,
so the `getD` defaults are never taken. -/
def card_to_str (card_id : Nat) : String :=
  String.mk [RANKS.getD (card_id % 13) '?', SUITS.getD (card_id / 13) '?']

/-- Source `parse_cards` from src/main.py: each two-character card string such as
"Ah" becomes `(RANKS.index(card[0]) + 2, card[1])`.  All inputs used in the
claims are well-formed two-character codes, so the `getD` defaults are never
taken (Python would raise on malformed input). -/
def parse_cards (cards : List String) : List (Int × Char) :=
  cards.map (fun card =>
    ((RANKS.indexOf (card.toList.getD 0 ' ') : Int) + 2, card.toList.getD 1 ' '))

/-- Python's `sorted(l, reverse=True)` on integers: a stable descending sort. -/
def pySortDesc (l : List Int) : List Int :=
  List.insertionSort (fun a b : Int => b ≤ a) l

/-- Iteration order of a Python `dict` built by inserting the elements of `l`
in order (first occurrence wins), as used by `get_pairs`; also used to model
the element set `set(ranks)` (whose iteration order is irrelevant there
because the result is sorted immediately afterwards). -/
def pyDictKeys (l : List Int) : List Int :=
  l.foldl (fun acc x => if x ∈ acc then acc else acc ++ [x]) []

/-- Source `get_pairs` from src/main.py: count the multiplicity of every rank,
keep the `(rank, count)` items whose count is not 1, and sort them by rank
descending.  Counts are Python ints, hence `Int` here (the buggy
`two_pair` mixes them with ranks). -/
def get_pairs (ranks : List Int) : List (Int × Int) :=
  let rank_counts := (pyDictKeys ranks).map (fun r => (r, (ranks.count r : Int)))
  let rank_counts := rank_counts.filter (fun rc => rc.2 != 1)
  List.insertionSort (fun x y : Int × Int => y.1 ≤ x.1) rank_counts

/-- Source `straight_high` from src/main.py: sort the distinct ranks descending; a
straight needs 5 distinct ranks with `max - min = 4`, and the wheel
`[14, 5, 4, 3, 2]` counts as a 5-high straight. -/
def straight_high (ranks : List Int) : Option Int :=
  let sorted_ranks := pySortDesc (pyDictKeys ranks)
  match sorted_ranks with
  | [a, b, c, d, e] =>
    if a - e = 4 then some a
    else if [a, b, c, d, e] = [14, 5, 4, 3, 2] then some 5
    else none
  | _ => none

/-- Source `four_of_a_kind` from src/main.py. -/
def four_of_a_kind (rank_counts : List (Int × Int)) : Option Int :=
  match rank_counts with
  | [rc] => if rc.2 = 4 then some rc.1 else none
  | _ => none

/-- Source `full_house` from src/main.py: sort the `(rank, count)` items by count
descending; if there are exactly two items with counts 3 and 2, return the
two ranks sorted DESCENDING (note: the source re-sorts by rank, so the pair
rank comes first whenever it is numerically higher than the trips rank). -/
def full_house (rank_counts : List (Int × Int)) : Option (Int × Int) :=
  let rc := List.insertionSort (fun x y : Int × Int => y.2 ≤ x.2) rank_counts
  match rc with
  | [p, q] =>
    if p.2 = 3 ∧ q.2 = 2 then
      match pySortDesc [p.1, q.1] with
      | [a, b] => some (a, b)
      | _ => none
    else none
  | _ => none

/-- Source `three_of_a_kind` from src/main.py. -/
def three_of_a_kind (rank_counts : List (Int × Int)) : Option Int :=
  match rank_counts with
  | [rc] => if rc.2 = 3 then some rc.1 else none
  | _ => none

/-- Source `two_pair` from src/main.py.  Note the source returns
`(rank_counts[0][0], rank_counts[0][1])`, i.e. the HIGHER PAIR RANK paired
with its COUNT (always 2), not the two pair ranks. -/
def two_pair (rank_counts : List (Int × Int)) : Option (Int × Int) :=
  match rank_counts with
  | [p, q] => if p.2 = 2 ∧ q.2 = 2 then some (p.1, p.2) else none
  | _ => none

/-- Source `one_pair` from src/main.py. -/
def one_pair (rank_counts : List (Int × Int)) : Option Int :=
  match rank_counts with
  | [rc] => if rc.2 = 2 then some rc.1 else none
  | _ => none

/-- Source `score_five` from src/main.py.  A non-5-card input makes the Python
function execute a bare `return`, i.e. return `None` (`PyVal.vnone`); no
exception is ever raised.  The branch results reproduce the source exactly,
including `(8, (straight))` being `(8, straight)` (a parenthesised int, not
a 1-tuple), the flush branch returning the rank LIST, and the two-pair
branch embedding the `(rank, count)` pair returned by `two_pair` and
filtering kickers by membership in that pair. -/
def score_five (cards : List (Int × Char)) : PyVal :=
  if cards.length ≠ 5 then PyVal.vnone
  else
    let ranks := pySortDesc (cards.map Prod.fst)
    let suits := cards.map Prod.snd
    let flush := suits.dedup.length = 1
    let straight := straight_high ranks
    let four_o_a_k := four_of_a_kind (get_pairs ranks)
    let full_h := full_house (get_pairs ranks)
    let three_o_a_k := three_of_a_kind (get_pairs ranks)
    let two_p := two_pair (get_pairs ranks)
    let one_p := one_pair (get_pairs ranks)
    if straight = some 14 ∧ flush then
      PyVal.vtup [PyVal.vint 9, PyVal.vtup []]
    else if straight ≠ none ∧ flush then
      PyVal.vtup [PyVal.vint 8, PyVal.vint (straight.getD 0)]
    else if four_o_a_k ≠ none then
      let q := four_o_a_k.getD 0
      PyVal.vtup [PyVal.vint 7, PyVal.vtup ((q :: ranks.filter (fun r => r != q)).map PyVal.vint)]
    else if full_h ≠ none then
      let fh := full_h.getD (0, 0)
      PyVal.vtup [PyVal.vint 6, PyVal.vtup [PyVal.vint fh.1, PyVal.vint fh.2]]
    else if flush then
      PyVal.vtup [PyVal.vint 5, PyVal.vlist (ranks.map PyVal.vint)]
    else if straight ≠ none then
      PyVal.vtup [PyVal.vint 4, PyVal.vint (straight.getD 0)]
    else if three_o_a_k ≠ none then
      let t := three_o_a_k.getD 0
      PyVal.vtup [PyVal.vint 3, PyVal.vtup ((t :: ranks.filter (fun r => r != t)).map PyVal.vint)]
    else if two_p ≠ none then
      let tp := two_p.getD (0, 0)
      PyVal.vtup [PyVal.vint 2, PyVal.vtup
        (PyVal.vtup [PyVal.vint tp.1, PyVal.vint tp.2] ::
          (ranks.filter (fun r => r != tp.1 && r != tp.2)).map PyVal.vint)]
    else if one_p ≠ none then
      let pr := one_p.getD 0
      PyVal.vtup [PyVal.vint 1, PyVal.vtup ((pr :: ranks.filter (fun r => r != pr)).map PyVal.vint)]
    else
      PyVal.vtup [PyVal.vint 0, PyVal.vtup (ranks.map PyVal.vint)]

example : score_five (parse_cards ["Ah", "Kh", "Qh", "Jh", "Th"]) =
    PyVal.vtup [PyVal.vint 9, PyVal.vtup []] := rfl

example : score_five (parse_cards ["Th", "9h", "8h", "7h", "6h"]) =
    PyVal.vtup [PyVal.vint 8, PyVal.vint 10] := rfl

example : score_five (parse_cards ["Th", "Ts", "Tc", "Td", "9s"]) =
    PyVal.vtup [PyVal.vint 7, PyVal.vtup [PyVal.vint 10, PyVal.vint 9]] := rfl

example : score_five (parse_cards ["Th", "Ts", "5c", "9h", "9s"]) =
    PyVal.vtup [PyVal.vint 2, PyVal.vtup
      [PyVal.vtup [PyVal.vint 10, PyVal.vint 2], PyVal.vint 9, PyVal.vint 9, PyVal.vint 5]] := rfl

example : score_five (parse_cards ["9h", "9s", "9c", "Th", "Ts"]) =
    PyVal.vtup [PyVal.vint 6, PyVal.vtup [PyVal.vint 10, PyVal.vint 9]] := rfl

/-- Source `GamePlayer` dataclass from src/main.py (the engine-side player record). -/
structure GamePlayer where
  name : String
  stack : Int
  bet : Int := 0
  made_decision_this_round : Bool := false
  in_hand : Bool := true
  cards_hidden : Bool := true
  cards : String × String := ("??", "??")
  last_action : Option String := none
deriving DecidableEq, Inhabited

/-- The fields of a `PokerHand` object from src/main.py.  The deck is the
post-shuffle permutation (the shuffle itself is the only randomness and is
taken as an input). -/
structure HandState where
  players : List GamePlayer
  n_seats : Nat
  in_showdown : Bool
  button_pos : Nat
  bb_amount : Int
  sb_amount : Int
  sb_pos : Nat
  bb_pos : Nat
  current_player_idx : Nat
  pot : Int
  board : List String
  deck : List Nat
  current_bet : Int
deriving DecidableEq, Inhabited

/-- Projection: the list of current street bets, seat by seat. -/
def bets (l : List GamePlayer) : List Int := l.map (fun p => p.bet)

/-- Projection: the list of chip stacks, seat by seat. -/
def stacksOf (l : List GamePlayer) : List Int := l.map (fun p => p.stack)

/-- Projection: the list of `in_hand` flags, seat by seat. -/
def in_hands (l : List GamePlayer) : List Bool := l.map (fun p => p.in_hand)

/-- Projection: the list of `made_decision_this_round` flags, seat by seat. -/
def acteds (l : List GamePlayer) : List Bool := l.map (fun p => p.made_decision_this_round)

/-- The bets of the players still in the hand (used to state the
`current_bet` invariant of the spec). -/
def inHandBets (s : HandState) : List Int :=
  (s.players.filter (fun p => p.in_hand)).map (fun p => p.bet)

/-- Python's `max(...)` over a list of ints (the source applies it to the
generator `p.bet for p in self.players`, always over a nonempty player
list; on `[]` Python would raise, the `headD 0` default is never taken). -/
def pyMax (l : List Int) : Int := l.foldl max (l.headD 0)

/-- Python's `list.pop()`: remove and return the LAST element; `none` models
the `IndexError` raised on an empty list (`DeckExhausted` in the spec's
taxonomy). -/
def deckPop (deck : List Nat) : Option (Nat × List Nat) :=
  match deck with
  | [] => none
  | a :: l => some ((a :: l).getLast (by simp), (a :: l).dropLast)

/-- Write the name of the player at seat `i` (in range in every source use). -/
def setPlayerName (l : List GamePlayer) (i : Nat) (nm : String) : List GamePlayer :=
  match l[i]? with
  | some p => l.set i { p with name := nm }
  | none => l

/-- Source `reset_players_for_hand` from src/main.py. -/
def reset_players_for_hand (ps : List GamePlayer) : List GamePlayer :=
  ps.map (fun p =>
    { p with bet := 0, in_hand := true, made_decision_this_round := false,
             cards := ("??", "??"), last_action := none })

/-- Move `amt` chips from the stack of the player at seat `i` into that
player's street bet (the source's `p.stack -= amt; p.bet += amt`). -/
def chargePlayer (l : List GamePlayer) (i : Nat) (amt : Int) : List GamePlayer :=
  match l[i]? with
  | some p => l.set i { p with stack := p.stack - amt, bet := p.bet + amt }
  | none => l

/-- Source `PokerHand.post_blinds` from src/main.py.  Both blind amounts are
computed from the PRE-posting stacks (the source reads `sb_p.stack` and
`bb_p.stack` before any deduction), then the two deductions are applied in
order — which matters when `sb_pos = bb_pos` (a 1-seat hand), where the
second deduction hits the already reduced stack exactly as in the source. -/
def post_blinds (s : HandState) : HandState :=
  match s.players[s.sb_pos]?, s.players[s.bb_pos]? with
  | some sb_p, some bb_p =>
    let sb := min s.sb_amount sb_p.stack
    let bb := min s.bb_amount bb_p.stack
    let ps1 := chargePlayer s.players s.sb_pos sb
    let ps2 := chargePlayer ps1 s.bb_pos bb
    { s with players := ps2, pot := s.pot + sb + bb }
  | _, _ => s

/-- Source `PokerHand.deal_cards` from src/main.py: pop two cards per seat, in seat
order, writing them as strings into `cards`; `none` models the `IndexError`
of popping an exhausted deck. -/
def dealHole (ps : List GamePlayer) (deck : List Nat) : Option (List GamePlayer × List Nat) :=
  match ps with
  | [] => some ([], deck)
  | p :: rest =>
    (deckPop deck).bind (fun cd1 =>
      (deckPop cd1.2).bind (fun cd2 =>
        (dealHole rest cd2.2).map (fun pd =>
          ({ p with cards := (card_to_str cd1.1, card_to_str cd2.1) } :: pd.1, pd.2))))

/-- The `PokerHand.__init__` state of src/main.py just before `post_blinds`:
seat names assigned (button, then SB, then BB, later writes overwriting
earlier ones when positions coincide), per-hand player state reset, pot and
board empty, the shuffled deck installed. -/
def handBase (players : List GamePlayer) (button_pos : Nat) (big_blind : Int)
    (deck : List Nat) : HandState :=
  let n_seats := players.length
  let sb_pos := (button_pos + 1) % n_seats
  let bb_pos := (button_pos + 2) % n_seats
  let ps0 := setPlayerName players button_pos
    ("Seat " ++ toString (button_pos + 1) ++ " (Button)")
  let ps1 := setPlayerName ps0 sb_pos ("Seat " ++ toString (sb_pos + 1) ++ " (SB)")
  let ps2 := setPlayerName ps1 bb_pos ("Seat " ++ toString (bb_pos + 1) ++ " (BB)")
  { players := reset_players_for_hand ps2
    n_seats := n_seats
    in_showdown := false
    button_pos := button_pos
    bb_amount := big_blind
    sb_amount := Int.fdiv big_blind 2
    sb_pos := sb_pos
    bb_pos := bb_pos
    current_player_idx := (bb_pos + 1) % n_seats
    pot := 0
    board := []
    deck := deck
    current_bet := 0 }

/-- Source `PokerHand.__init__` from src/main.py, with the shuffled deck passed in.
`none` models the exceptions Python would raise: `ZeroDivisionError` from
the `% n_seats` position arithmetic when the seat list is empty, and
`IndexError` when the deck has fewer than 2 cards per seat.  Field-setting
order follows the source: names and resets (`handBase`), then
`post_blinds`, then `current_bet = max(p.bet for p in self.players)`, then
`deal_cards`. -/
def mkHand (players : List GamePlayer) (button_pos : Nat) (big_blind : Int)
    (deck : List Nat) : Option HandState :=
  if players.length = 0 then none
  else
    let s1 := post_blinds (handBase players button_pos big_blind deck)
    let s2 := { s1 with current_bet := pyMax (bets s1.players) }
    (dealHole s2.players s2.deck).map (fun pd => { s2 with players := pd.1, deck := pd.2 })

/-- The `"fold"` branch of `PokerHand.apply_action`. -/
def foldUpd (s : HandState) (seat_idx : Nat) (p : GamePlayer) : HandState :=
  let p2 : GamePlayer :=
    { p with in_hand := false, made_decision_this_round := true, last_action := some "FOLD" }
  { s with players := s.players.set seat_idx p2 }

/-- The `"check"` (check-or-call) branch of `PokerHand.apply_action`. -/
def checkUpd (s : HandState) (seat_idx : Nat) (p : GamePlayer) : HandState :=
  let needed := max 0 (s.current_bet - p.bet)
  let pay := min needed p.stack
  let p2 : GamePlayer :=
    { p with stack := p.stack - pay, bet := p.bet + pay,
             made_decision_this_round := true,
             last_action := some (if needed = 0 then "CHECK" else "CALL") }
  { s with players := s.players.set seat_idx p2, pot := s.pot + pay }

/-- Reset `made_decision_this_round` of every `in_hand` player other than
the one at seat `seat` (the raiser): the source's
`for other in self.players: if other.in_hand and other is not p`.  The
parameter `j` is the seat index of the head of `l`. -/
def resetOthers (seat : Nat) (j : Nat) (l : List GamePlayer) : List GamePlayer :=
  match l with
  | [] => []
  | q :: qs =>
    (if q.in_hand = true ∧ j ≠ seat then { q with made_decision_this_round := false } else q)
      :: resetOthers seat (j + 1) qs

/-- The `"raise"` branch of `PokerHand.apply_action` (with a non-`None`
amount).  The raiser's stack/bet update, the conditional reopening of the
round, and the final `made_decision_this_round = True` / `last_action`
assignment follow the source's statement order. -/
def raiseUpd (s : HandState) (seat_idx : Nat) (p : GamePlayer) (raise_to : Int) : HandState :=
  let rt := max raise_to s.current_bet
  let needed := max 0 (rt - p.bet)
  let pay := min needed p.stack
  let p1 : GamePlayer := { p with stack := p.stack - pay, bet := p.bet + pay }
  let ps1 := s.players.set seat_idx p1
  let ps2 := if p1.bet > s.current_bet then resetOthers seat_idx 0 ps1 else ps1
  let cb := if p1.bet > s.current_bet then p1.bet else s.current_bet
  let p2 : GamePlayer :=
    { p1 with made_decision_this_round := true,
              last_action := some ("RAISE " ++ toString p1.bet) }
  let ps3 := ps2.set seat_idx p2
  { s with players := ps3, pot := s.pot + pay, current_bet := cb }

/-- Python's `str.lower()` as applied to the action string.  (Core's
`String.toLower` walks byte positions and does not reduce definitionally,
so the equivalent character-list map is used.) -/
def pyLower (s : String) : String := String.mk (s.toList.map Char.toLower)

/-- Source `PokerHand.apply_action` from src/main.py.  There is NO turn check: any
seat index may be passed.  A seat whose player is not `in_hand` is a no-op,
as is a `"raise"` with `raise_to = None`.  (A seat index out of range would
raise `IndexError` in Python and is modelled as a no-op; no claim exercises
it.) -/
def applyAction (s : HandState) (seat_idx : Nat) (action : String)
    (raise_to : Option Int) : HandState :=
  match s.players[seat_idx]? with
  | none => s
  | some p =>
    if p.in_hand = false then s
    else
      let act := pyLower action
      if act = "fold" then foldUpd s seat_idx p
      else if act = "check" then checkUpd s seat_idx p
      else if act = "raise" then
        match raise_to with
        | none => s
        | some rt => raiseUpd s seat_idx p rt
      else s

/-- Source `PokerHand.betting_round_complete` from src/main.py: true when at most
one player is `in_hand`, or when every `in_hand` player has acted and the
set of `in_hand` bets has at most one element. -/
def betting_round_complete (s : HandState) : Bool :=
  let in_hand_players := s.players.filter (fun p => p.in_hand)
  if in_hand_players.length ≤ 1 then true
  else
    let all_acted := in_hand_players.all (fun p => p.made_decision_this_round)
    let bets_equal : Bool := decide ((in_hand_players.map (fun p => p.bet)).dedup.length ≤ 1)
    all_acted && bets_equal

/-- Source `PokerHand.start_new_betting_round` from src/main.py. -/
def start_new_betting_round (s : HandState) : HandState :=
  { s with
    players := s.players.map (fun p =>
      { p with bet := 0, made_decision_this_round := false, last_action := none }),
    current_bet := 0 }

/-- Source `PokerHand.deal_flop` from src/main.py: the board is REPLACED by three
freshly popped cards. -/
def deal_flop (s : HandState) : Option HandState :=
  (deckPop s.deck).bind (fun cd1 =>
    (deckPop cd1.2).bind (fun cd2 =>
      (deckPop cd2.2).map (fun cd3 =>
        { s with board := [card_to_str cd1.1, card_to_str cd2.1, card_to_str cd3.1],
                 deck := cd3.2 })))

/-- Source `PokerHand.deal_turn` from src/main.py: append one popped card. -/
def deal_turn (s : HandState) : Option HandState :=
  (deckPop s.deck).map (fun cd =>
    { s with board := s.board ++ [card_to_str cd.1], deck := cd.2 })

/-- Source `PokerHand.deal_river` from src/main.py: append one popped card. -/
def deal_river (s : HandState) : Option HandState :=
  (deckPop s.deck).map (fun cd =>
    { s with board := s.board ++ [card_to_str cd.1], deck := cd.2 })

/-- The `PokerGame` session object from src/main.py. -/
structure PokerGame where
  n_seats : Nat
  big_blind_amount : Int
  players : List GamePlayer
  hand_number : Nat
  button_pos : Nat
deriving DecidableEq, Inhabited

/-- Source `PokerGame.__init__` from src/main.py, with the randomly drawn button
position passed in.  NOTE: the source performs no validation whatsoever of
`n_seats` (in particular no `2*seats+5 <= 52` check). -/
def mkGame (n_seats : Nat) (big_blind_amount : Int) (button_pos : Nat) : PokerGame :=
  { n_seats := n_seats
    big_blind_amount := big_blind_amount
    players := ({ name := "Seat 1 (Me)", stack := 1500 } : GamePlayer) ::
      (List.range' 1 (n_seats - 1)).map
        (fun i => { name := "Seat " ++ toString (i + 1), stack := 1500 })
    hand_number := 0
    button_pos := button_pos }

/-- A 3-seat table of fresh 1500-chip players (as `PokerGame` would create). -/
def players3 : List GamePlayer :=
  [{ name := "Seat 1 (Me)", stack := 1500 }, { name := "Seat 2", stack := 1500 },
   { name := "Seat 3", stack := 1500 }]

/-- A concrete 3-seat hand: button seat 0, big blind 50, a 6-card deck. -/
def hand0 : HandState := (mkHand players3 0 50 [0, 1, 2, 3, 4, 5]).getD default

example : mkHand players3 0 50 [0, 1, 2, 3, 4, 5] = some hand0 := rfl

example : hand0.current_bet = 50 ∧ bets hand0.players = [0, 25, 50] ∧ hand0.pot = 75 ∧
    hand0.current_player_idx = 0 := by refine ⟨rfl, rfl, rfl, rfl⟩

/-- Setting an index to the element it already holds leaves the list unchanged. -/
theorem set_same {α : Type} (l : List α) (i : Nat) (a : α) (h : l[i]? = some a) :
    l.set i a = l := by
  induction l generalizing i with
  | nil => simp at h
  | cons x xs ih =>
    cases i with
    | zero => simp_all
    | succ j => simp_all [List.set]

/-- The seed of a `max` fold is a lower bound of the fold. -/
theorem init_le_foldl_max (l : List Int) (a : Int) : a ≤ l.foldl max a := by
  induction l generalizing a with
  | nil => exact le_refl a
  | cons x xs ih => exact le_trans (le_max_left a x) (ih (max a x))

/-- Every member of the list is a lower bound of a `max` fold over it. -/
theorem mem_le_foldl_max (l : List Int) (a b : Int) (hb : b ∈ l) : b ≤ l.foldl max a := by
  induction l generalizing a with
  | nil => simp at hb
  | cons x xs ih =>
    rcases List.mem_cons.mp hb with h | h
    · subst h
      exact le_trans (le_max_right a b) (init_le_foldl_max xs (max a b))
    · exact ih (max a x) h

/-- A `max` fold returns either its seed or a member of the list. -/
theorem foldl_max_eq_or_mem (l : List Int) (a : Int) :
    l.foldl max a = a ∨ l.foldl max a ∈ l := by
  induction l generalizing a with
  | nil => exact Or.inl rfl
  | cons x xs ih =>
    rcases ih (max a x) with h | h
    · rcases max_choice a x with hm | hm
      · exact Or.inl (by rw [List.foldl, h, hm])
      · exact Or.inr (by rw [List.foldl, h, hm]; exact List.mem_cons_self x xs)
    · exact Or.inr (List.mem_cons_of_mem x h)

/-- Lemma: `pyMax` dominates every member of the list. -/
theorem le_pyMax (l : List Int) (b : Int) (hb : b ∈ l) : b ≤ pyMax l :=
  mem_le_foldl_max l (l.headD 0) b hb

/-- Lemma: `pyMax` of a nonempty list is a member of the list. -/
theorem pyMax_mem (l : List Int) (hl : l ≠ []) : pyMax l ∈ l := by
  match l, hl with
  | x :: xs, _ =>
    rcases foldl_max_eq_or_mem (x :: xs) ((x :: xs).headD 0) with h | h
    · rw [pyMax, h]; exact List.mem_cons_self x xs
    · exact h

/-- Popping succeeds exactly on a nonempty deck and shortens it by one. -/
theorem deckPop_length (d : List Nat) (c : Nat) (d' : List Nat)
    (h : deckPop d = some (c, d')) : d'.length + 1 = d.length := by
  match d, h with
  | a :: l, h =>
    simp only [deckPop, Option.some.injEq, Prod.mk.injEq] at h
    rw [← h.2, List.length_dropLast]
    simp

/-- Popping an empty deck fails. -/
theorem deckPop_nil : deckPop [] = none := rfl

/-- A nonempty deck pops successfully. -/
theorem deckPop_isSome (d : List Nat) (hd : d ≠ []) : ∃ c d', deckPop d = some (c, d') := by
  match d, hd with
  | a :: l, _ => exact ⟨_, _, rfl⟩

/-- Lemma: `dealHole` only rewrites hole cards: all other per-player fields are
preserved (stated on the seat-by-seat projections). -/
theorem dealHole_proj (ps : List GamePlayer) (deck : List Nat) (ps' : List GamePlayer)
    (d' : List Nat) (h : dealHole ps deck = some (ps', d')) :
    bets ps' = bets ps ∧ stacksOf ps' = stacksOf ps ∧ in_hands ps' = in_hands ps ∧
      acteds ps' = acteds ps := by
  induction ps generalizing deck ps' d' with
  | nil =>
    simp only [dealHole, Option.some.injEq, Prod.mk.injEq] at h
    rw [← h.1]
    exact ⟨rfl, rfl, rfl, rfl⟩
  | cons p rest ih =>
    simp only [dealHole] at h
    rcases h1 : deckPop deck with _ | ⟨c1, d1⟩ <;> simp only [h1, Option.none_bind, Option.some_bind] at h
    · exact absurd h (by simp)
    · rcases h2 : deckPop d1 with _ | ⟨c2, d2⟩ <;> simp only [h2, Option.none_bind, Option.some_bind] at h
      · exact absurd h (by simp)
      · rcases h3 : dealHole rest d2 with _ | ⟨ps2, d3⟩ <;> simp only [h3, Option.map_none', Option.map_some'] at h
        · exact absurd h (by simp)
        · simp only [Option.some.injEq, Prod.mk.injEq] at h
          obtain ⟨hps, -⟩ := h
          obtain ⟨hb, hs, hi, ha⟩ := ih d2 ps2 d3 h3
          rw [← hps]
          simp only [bets, stacksOf, in_hands, acteds, List.map_cons] at hb hs hi ha ⊢
          exact ⟨by rw [hb], by rw [hs], by rw [hi], by rw [ha]⟩

/-- A deck holding at least two cards per seat deals all hole cards and
keeps exactly the surplus. -/
theorem dealHole_isSome (ps : List GamePlayer) (deck : List Nat)
    (h : 2 * ps.length ≤ deck.length) :
    ∃ ps' d', dealHole ps deck = some (ps', d') ∧ d'.length + 2 * ps.length = deck.length := by
  induction ps generalizing deck with
  | nil => exact ⟨[], deck, rfl, by simp⟩
  | cons p rest ih =>
    simp only [List.length_cons] at h
    have hd1 : deck ≠ [] := by
      intro hnil
      subst hnil
      simp only [List.length_nil] at h
      omega
    obtain ⟨c1, d1, h1⟩ := deckPop_isSome deck hd1
    have hl1 : d1.length + 1 = deck.length := deckPop_length deck c1 d1 h1
    have hd2 : d1 ≠ [] := by
      intro hnil
      subst hnil
      simp only [List.length_nil] at hl1
      omega
    obtain ⟨c2, d2, h2⟩ := deckPop_isSome d1 hd2
    have hl2 : d2.length + 1 = d1.length := deckPop_length d1 c2 d2 h2
    have hrest : 2 * rest.length ≤ d2.length := by omega
    obtain ⟨ps', d3, h3, hl3⟩ := ih d2 hrest
    refine ⟨{ p with cards := (card_to_str c1, card_to_str c2) } :: ps', d3, ?_, ?_⟩
    · simp only [dealHole, h1, h2, h3, Option.some_bind, Option.map_some']
    · simp only [List.length_cons]
      omega

/-- Replacing an element changes an integer sum by the difference. -/
theorem sum_set_int (l : List Int) (i : Nat) (a b : Int) (h : l[i]? = some b) :
    (l.set i a).sum = l.sum - b + a := by
  induction l generalizing i with
  | nil => simp at h
  | cons x xs ih =>
    cases i with
    | zero =>
      simp only [List.getElem?_cons_zero, Option.some.injEq] at h
      subst h
      simp [List.set]
      ring
    | succ j =>
      simp only [List.getElem?_cons_succ] at h
      simp only [List.set, List.sum_cons, ih j h]
      ring

/-- Bets after `List.set`, pointwise. -/
theorem bets_set (l : List GamePlayer) (i : Nat) (q : GamePlayer) :
    bets (l.set i q) = (bets l).set i q.bet := by
  simp [bets]

/-- Stacks after `List.set`, pointwise. -/
theorem stacksOf_set (l : List GamePlayer) (i : Nat) (q : GamePlayer) :
    stacksOf (l.set i q) = (stacksOf l).set i q.stack := by
  simp [stacksOf]

/-- The `in_hand` flags after `List.set`, pointwise. -/
theorem in_hands_set (l : List GamePlayer) (i : Nat) (q : GamePlayer) :
    in_hands (l.set i q) = (in_hands l).set i q.in_hand := by
  simp [in_hands]

/-- A projection list is unchanged by a `set` that preserves the projection. -/
theorem stacksOf_set_same (l : List GamePlayer) (i : Nat) (p q : GamePlayer)
    (h : l[i]? = some p) (hq : q.stack = p.stack) : stacksOf (l.set i q) = stacksOf l := by
  rw [stacksOf_set, hq]
  exact set_same (stacksOf l) i p.stack (by simp [stacksOf, List.getElem?_map, h])

/-- Bets are unchanged by a `set` that preserves the bet. -/
theorem bets_set_same (l : List GamePlayer) (i : Nat) (p q : GamePlayer)
    (h : l[i]? = some p) (hq : q.bet = p.bet) : bets (l.set i q) = bets l := by
  rw [bets_set, hq]
  exact set_same (bets l) i p.bet (by simp [bets, List.getElem?_map, h])

/-- The `in_hand` flags are unchanged by a `set` that preserves the flag. -/
theorem in_hands_set_same (l : List GamePlayer) (i : Nat) (p q : GamePlayer)
    (h : l[i]? = some p) (hq : q.in_hand = p.in_hand) : in_hands (l.set i q) = in_hands l := by
  rw [in_hands_set, hq]
  exact set_same (in_hands l) i p.in_hand (by simp [in_hands, List.getElem?_map, h])

/-- Lemma: `setPlayerName` leaves all chip-relevant projections unchanged. -/
theorem setPlayerName_proj (l : List GamePlayer) (i : Nat) (nm : String) :
    bets (setPlayerName l i nm) = bets l ∧ stacksOf (setPlayerName l i nm) = stacksOf l ∧
      in_hands (setPlayerName l i nm) = in_hands l := by
  unfold setPlayerName
  cases h : l[i]? with
  | none => exact ⟨rfl, rfl, rfl⟩
  | some p =>
    exact ⟨bets_set_same l i p _ h rfl, stacksOf_set_same l i p _ h rfl,
      in_hands_set_same l i p _ h rfl⟩

/-- Lemma: `reset_players_for_hand` zeroes all bets. -/
theorem reset_bets (ps : List GamePlayer) :
    bets (reset_players_for_hand ps) = List.replicate ps.length 0 := by
  simp [bets, reset_players_for_hand, List.map_map]
  exact List.map_const' ps 0

/-- Lemma: `reset_players_for_hand` preserves stacks. -/
theorem reset_stacks (ps : List GamePlayer) :
    stacksOf (reset_players_for_hand ps) = stacksOf ps := by
  simp [stacksOf, reset_players_for_hand, List.map_map]

/-- Lemma: `reset_players_for_hand` puts every player `in_hand`. -/
theorem reset_in_hands (ps : List GamePlayer) :
    in_hands (reset_players_for_hand ps) = List.replicate ps.length true := by
  simp [in_hands, reset_players_for_hand, List.map_map]
  exact List.map_const' ps true

/-- Lemma: `chargePlayer` moves exactly `amt` out of the stack sum when the seat
exists. -/
theorem chargePlayer_sum (l : List GamePlayer) (i : Nat) (amt : Int) (p : GamePlayer)
    (h : l[i]? = some p) :
    (stacksOf (chargePlayer l i amt)).sum = (stacksOf l).sum - amt := by
  unfold chargePlayer
  rw [h]
  rw [stacksOf_set]
  rw [sum_set_int (stacksOf l) i (p.stack - amt) p.stack (by simp [stacksOf, List.getElem?_map, h])]
  ring

/-- Lemma: `chargePlayer` preserves the `in_hand` flags. -/
theorem chargePlayer_in_hands (l : List GamePlayer) (i : Nat) (amt : Int) :
    in_hands (chargePlayer l i amt) = in_hands l := by
  unfold chargePlayer
  cases h : l[i]? with
  | none => rfl
  | some p => exact in_hands_set_same l i p _ h rfl

/-- Lemma: `chargePlayer` updates the charged seat's bet pointwise. -/
theorem chargePlayer_bets (l : List GamePlayer) (i : Nat) (amt : Int) (p : GamePlayer)
    (h : l[i]? = some p) :
    bets (chargePlayer l i amt) = (bets l).set i (p.bet + amt) := by
  unfold chargePlayer
  rw [h, bets_set]

/-- Lemma: `chargePlayer` preserves the list length. -/
theorem chargePlayer_length (l : List GamePlayer) (i : Nat) (amt : Int) :
    (chargePlayer l i amt).length = l.length := by
  unfold chargePlayer
  cases h : l[i]? with
  | none => rfl
  | some p => simp

/-- Lemma: `resetOthers` leaves every bet unchanged. -/
theorem resetOthers_bets (seat : Nat) (j : Nat) (l : List GamePlayer) :
    bets (resetOthers seat j l) = bets l := by
  induction l generalizing j with
  | nil => rfl
  | cons q qs ih =>
    have ih2 := ih (j + 1)
    simp only [resetOthers, bets, List.map_cons] at ih2 ⊢
    rw [ih2]
    congr 1
    split <;> rfl

/-- Lemma: `resetOthers` leaves every stack unchanged. -/
theorem resetOthers_stacks (seat : Nat) (j : Nat) (l : List GamePlayer) :
    stacksOf (resetOthers seat j l) = stacksOf l := by
  induction l generalizing j with
  | nil => rfl
  | cons q qs ih =>
    have ih2 := ih (j + 1)
    simp only [resetOthers, stacksOf, List.map_cons] at ih2 ⊢
    rw [ih2]
    congr 1
    split <;> rfl

/-- Lemma: `resetOthers` leaves every `in_hand` flag unchanged. -/
theorem resetOthers_in_hands (seat : Nat) (j : Nat) (l : List GamePlayer) :
    in_hands (resetOthers seat j l) = in_hands l := by
  induction l generalizing j with
  | nil => rfl
  | cons q qs ih =>
    have ih2 := ih (j + 1)
    simp only [resetOthers, in_hands, List.map_cons] at ih2 ⊢
    rw [ih2]
    congr 1
    split <;> rfl

/-- Pointwise description of `resetOthers`. -/
theorem resetOthers_getElem (seat : Nat) (j : Nat) (l : List GamePlayer) (k : Nat) :
    (resetOthers seat j l)[k]? = (l[k]?).map (fun q =>
      if q.in_hand = true ∧ j + k ≠ seat then { q with made_decision_this_round := false }
      else q) := by
  induction l generalizing j k with
  | nil => simp [resetOthers]
  | cons q qs ih =>
    cases k with
    | zero => simp [resetOthers]
    | succ m =>
      simp only [resetOthers, List.getElem?_cons_succ, ih (j + 1) m]
      have : j + 1 + m = j + (m + 1) := by omega
      rw [this]


/-- Lemma: `setPlayerName` preserves the seat count. -/
theorem setPlayerName_length (l : List GamePlayer) (i : Nat) (nm : String) :
    (setPlayerName l i nm).length = l.length := by
  unfold setPlayerName
  cases h : l[i]? <;> simp

/-- The base state of a hand keeps the incoming stacks: the name/reset
bookkeeping never touches chips. -/
theorem handBase_stacks (players : List GamePlayer) (button_pos : Nat) (big_blind : Int)
    (deck : List Nat) :
    stacksOf (handBase players button_pos big_blind deck).players = stacksOf players := by
  unfold handBase
  rw [reset_stacks]
  rw [(setPlayerName_proj _ _ _).2.1, (setPlayerName_proj _ _ _).2.1,
    (setPlayerName_proj _ _ _).2.1]

/-- Lemma: `handBase` puts every seat `in_hand`. -/
theorem handBase_in_hands (players : List GamePlayer) (button_pos : Nat) (big_blind : Int)
    (deck : List Nat) :
    in_hands (handBase players button_pos big_blind deck).players =
      List.replicate players.length true := by
  unfold handBase
  rw [reset_in_hands, setPlayerName_length, setPlayerName_length, setPlayerName_length]

/-- Lemma: `handBase` starts with an empty pot. -/
theorem handBase_pot (players : List GamePlayer) (button_pos : Nat) (big_blind : Int)
    (deck : List Nat) : (handBase players button_pos big_blind deck).pot = 0 := rfl

/-- Lemma: `post_blinds` conserves pot-plus-stacks. -/
theorem post_blinds_conserv (s : HandState) :
    (post_blinds s).pot + (stacksOf (post_blinds s).players).sum =
      s.pot + (stacksOf s.players).sum := by
  unfold post_blinds
  cases hsb : s.players[s.sb_pos]? with
  | none => rfl
  | some sb_p =>
    cases hbb : s.players[s.bb_pos]? with
    | none => rfl
    | some bb_p =>
      have hlen : s.bb_pos < s.players.length := (List.getElem?_eq_some_iff.mp hbb).1
      have hlen1 : s.bb_pos <
          (chargePlayer s.players s.sb_pos (min s.sb_amount sb_p.stack)).length := by
        rw [chargePlayer_length]; exact hlen
      obtain ⟨q, hq⟩ : ∃ q,
          (chargePlayer s.players s.sb_pos (min s.sb_amount sb_p.stack))[s.bb_pos]? = some q :=
        ⟨_, List.getElem?_eq_getElem hlen1⟩
      have e1 := chargePlayer_sum s.players s.sb_pos (min s.sb_amount sb_p.stack) sb_p hsb
      have e2 := chargePlayer_sum _ s.bb_pos (min s.bb_amount bb_p.stack) q hq
      simp only [e2, e1]
      ring

/-- Hand construction conserves chips: the pot plus the remaining stacks
equals the stack total of the incoming player list. -/
theorem mkHand_conserv (players : List GamePlayer) (button_pos : Nat) (big_blind : Int)
    (deck : List Nat) (h : HandState)
    (hm : mkHand players button_pos big_blind deck = some h) :
    h.pot + (stacksOf h.players).sum = (stacksOf players).sum := by
  unfold mkHand at hm
  by_cases hne : players.length = 0
  · rw [if_pos hne] at hm; exact absurd hm (by simp)
  · rw [if_neg hne] at hm
    rw [Option.map_eq_some'] at hm
    obtain ⟨pd, hd, hh⟩ := hm
    have hproj := dealHole_proj _ _ pd.1 pd.2 (by rw [hd])
    have hcons := post_blinds_conserv (handBase players button_pos big_blind deck)
    rw [← hh]
    simp only
    rw [hproj.2.1]
    rw [handBase_pot, handBase_stacks, zero_add] at hcons
    exact hcons

/-- Replacing a player by one whose stack dropped by `amt` while the pot
gained `amt` conserves pot-plus-stacks. -/
theorem pot_stacks_set (pot amt : Int) (l : List GamePlayer) (i : Nat) (p q : GamePlayer)
    (hp : l[i]? = some p) (hq : q.stack = p.stack - amt) :
    pot + amt + (stacksOf (l.set i q)).sum = pot + (stacksOf l).sum := by
  rw [stacksOf_set, hq,
    sum_set_int (stacksOf l) i _ p.stack (by simp [stacksOf, List.getElem?_map, hp])]
  ring

/-- As `pot_stacks_set`, through the raiser's double `set` with an
interleaved `resetOthers` (which never touches stacks). -/
theorem pot_stacks_set_raise (pot amt : Int) (l : List GamePlayer) (i : Nat)
    (p p1 p2 : GamePlayer) (hp : l[i]? = some p) (hq : p2.stack = p.stack - amt) :
    pot + amt + (stacksOf ((resetOthers i 0 (l.set i p1)).set i p2)).sum =
      pot + (stacksOf l).sum := by
  rw [stacksOf_set, resetOthers_stacks, stacksOf_set, List.set_set, hq,
    sum_set_int (stacksOf l) i _ p.stack (by simp [stacksOf, List.getElem?_map, hp])]
  ring

/-- As `pot_stacks_set`, through the raiser's double `set` without the
reopening loop. -/
theorem pot_stacks_set_raise2 (pot amt : Int) (l : List GamePlayer) (i : Nat)
    (p p1 p2 : GamePlayer) (hp : l[i]? = some p) (hq : p2.stack = p.stack - amt) :
    pot + amt + (stacksOf ((l.set i p1).set i p2)).sum = pot + (stacksOf l).sum := by
  rw [stacksOf_set, stacksOf_set, List.set_set, hq,
    sum_set_int (stacksOf l) i _ p.stack (by simp [stacksOf, List.getElem?_map, hp])]
  ring

/-- Folding conserves pot-plus-stacks. -/
theorem foldUpd_conserv (s : HandState) (i : Nat) (p : GamePlayer)
    (hp : s.players[i]? = some p) :
    (foldUpd s i p).pot + (stacksOf (foldUpd s i p).players).sum =
      s.pot + (stacksOf s.players).sum := by
  unfold foldUpd
  simp only
  have hq : ({ p with in_hand := false, made_decision_this_round := true, last_action := some "FOLD" } : GamePlayer).stack = p.stack := rfl
  rw [stacksOf_set_same s.players i p _ hp hq]

/-- Checking/calling conserves pot-plus-stacks. -/
theorem checkUpd_conserv (s : HandState) (i : Nat) (p : GamePlayer)
    (hp : s.players[i]? = some p) :
    (checkUpd s i p).pot + (stacksOf (checkUpd s i p).players).sum =
      s.pot + (stacksOf s.players).sum := by
  unfold checkUpd
  simp only
  exact pot_stacks_set s.pot _ s.players i p _ hp rfl

/-- Raising conserves pot-plus-stacks. -/
theorem raiseUpd_conserv (s : HandState) (i : Nat) (p : GamePlayer) (rt : Int)
    (hp : s.players[i]? = some p) :
    (raiseUpd s i p rt).pot + (stacksOf (raiseUpd s i p rt).players).sum =
      s.pot + (stacksOf s.players).sum := by
  unfold raiseUpd
  simp only
  split
  · exact pot_stacks_set_raise s.pot _ s.players i p _ _ hp rfl
  · exact pot_stacks_set_raise2 s.pot _ s.players i p _ _ hp rfl

/-- Lemma: `apply_action` conserves pot-plus-stacks for every seat, action string
and raise amount. -/
theorem applyAction_conserv (s : HandState) (seat : Nat) (act : String) (r : Option Int) :
    (applyAction s seat act r).pot + (stacksOf (applyAction s seat act r).players).sum =
      s.pot + (stacksOf s.players).sum := by
  unfold applyAction
  cases hp : s.players[seat]? with
  | none => rfl
  | some p =>
    simp only
    by_cases hin : p.in_hand = false
    · rw [if_pos hin]
    · rw [if_neg hin]
      by_cases h1 : pyLower act = "fold"
      · rw [if_pos h1]
        exact foldUpd_conserv s seat p hp
      · rw [if_neg h1]
        by_cases h2 : pyLower act = "check"
        · rw [if_pos h2]
          exact checkUpd_conserv s seat p hp
        · rw [if_neg h2]
          by_cases h3 : pyLower act = "raise"
          · rw [if_pos h3]
            cases r with
            | none => rfl
            | some rt => exact raiseUpd_conserv s seat p rt hp
          · rw [if_neg h3]

/-- A sequence of `apply_action` calls, driver-style: each element is
`(seat, action, raise_to)`. -/
def applyActions (s : HandState) (acts : List (Nat × String × Option Int)) : HandState :=
  acts.foldl (fun t a => applyAction t a.1 a.2.1 a.2.2) s

/-- Chip conservation extends over any action sequence. -/
theorem applyActions_conserv (acts : List (Nat × String × Option Int)) (s : HandState) :
    (applyActions s acts).pot + (stacksOf (applyActions s acts).players).sum =
      s.pot + (stacksOf s.players).sum := by
  induction acts generalizing s with
  | nil => rfl
  | cons a rest ih =>
    have hstep := applyAction_conserv s a.1 a.2.1 a.2.2
    calc (applyActions (applyAction s a.1 a.2.1 a.2.2) rest).pot +
          (stacksOf (applyActions (applyAction s a.1 a.2.1 a.2.2) rest).players).sum
        = (applyAction s a.1 a.2.1 a.2.2).pot +
          (stacksOf (applyAction s a.1 a.2.1 a.2.2).players).sum := ih _
      _ = s.pot + (stacksOf s.players).sum := hstep

/-- C3: throughout a hand, the pot is exactly the chips moved out of the
stacks: after construction (blinds posted) and after every sequence of
`apply_action` calls, `pot` plus the sum of all stacks equals the stack sum
of the player list at hand construction. -/
theorem C3_pot_conservation (players : List GamePlayer) (button_pos : Nat) (big_blind : Int)
    (deck : List Nat) (h : HandState) (acts : List (Nat × String × Option Int))
    (hm : mkHand players button_pos big_blind deck = some h) :
    (applyActions h acts).pot + (stacksOf (applyActions h acts).players).sum =
      (stacksOf players).sum := by
  rw [applyActions_conserv acts h]
  exact mkHand_conserv players button_pos big_blind deck h hm

/-- Witness for C3 at a concrete 3-seat hand with a call and a raise. -/
theorem C3_pot_conservation_witness :
    (applyActions hand0 [(0, "check", none), (1, "raise", some 100)]).pot +
      (stacksOf (applyActions hand0 [(0, "check", none), (1, "raise", some 100)]).players).sum =
      (stacksOf players3).sum :=
  C3_pot_conservation players3 0 50 [0, 1, 2, 3, 4, 5] hand0
    [(0, "check", none), (1, "raise", some 100)] rfl

/-- A list has at most one distinct element iff all its members are equal
(the source's `len({...}) <= 1` test). -/
theorem dedup_length_le_one_iff {α : Type} [DecidableEq α] (l : List α) :
    l.dedup.length ≤ 1 ↔ ∀ a ∈ l, ∀ b ∈ l, a = b := by
  rw [← List.card_toFinset]
  constructor
  · intro h a ha b hb
    exact Finset.card_le_one.mp h a (List.mem_toFinset.mpr ha) b (List.mem_toFinset.mpr hb)
  · intro h
    exact Finset.card_le_one.mpr
      (fun a ha b hb => h a (List.mem_toFinset.mp ha) b (List.mem_toFinset.mp hb))

/-- C5: `betting_round_complete` returns true iff at most one player is
`in_hand`, or every `in_hand` player has acted and all `in_hand` players
share one equal bet value. -/
theorem C5_round_complete_iff (s : HandState) :
    betting_round_complete s = true ↔
      ((s.players.filter (fun p => p.in_hand)).length ≤ 1 ∨
        ((∀ p ∈ s.players.filter (fun p => p.in_hand), p.made_decision_this_round = true) ∧
          ∀ p ∈ s.players.filter (fun p => p.in_hand),
            ∀ q ∈ s.players.filter (fun p => p.in_hand), p.bet = q.bet)) := by
  unfold betting_round_complete
  by_cases hlen : (s.players.filter (fun p => p.in_hand)).length ≤ 1
  · simp [hlen]
  · rw [if_neg hlen]
    simp only [Bool.and_eq_true, List.all_eq_true, decide_eq_true_eq]
    constructor
    · rintro ⟨hall, hded⟩
      refine Or.inr ⟨fun p hp => hall p hp, ?_⟩
      intro p hp q hq
      exact (dedup_length_le_one_iff _).mp hded p.bet (List.mem_map.mpr ⟨p, hp, rfl⟩)
        q.bet (List.mem_map.mpr ⟨q, hq, rfl⟩)
    · rintro (h | ⟨hall, hbets⟩)
      · exact absurd h hlen
      · refine ⟨fun p hp => hall p hp, ?_⟩
        refine (dedup_length_le_one_iff _).mpr ?_
        rintro a ha b hb
        obtain ⟨p, hp, rfl⟩ := List.mem_map.mp ha
        obtain ⟨q, hq, rfl⟩ := List.mem_map.mp hb
        exact hbets p hp q hq

/-- Witness for C5 at a concrete state. -/
theorem C5_round_complete_iff_witness :
    betting_round_complete hand0 = true ↔
      ((hand0.players.filter (fun p => p.in_hand)).length ≤ 1 ∨
        ((∀ p ∈ hand0.players.filter (fun p => p.in_hand), p.made_decision_this_round = true) ∧
          ∀ p ∈ hand0.players.filter (fun p => p.in_hand),
            ∀ q ∈ hand0.players.filter (fun p => p.in_hand), p.bet = q.bet)) :=
  C5_round_complete_iff hand0

/-- C8 (amended): on any input that is not exactly 5 cards, `score_five`
returns Python `None` — it neither raises an error nor returns a
`(category, tiebreak)` pair. -/
theorem C8_short_input_returns_none (cards : List (Int × Char)) (h : cards.length ≠ 5) :
    score_five cards = PyVal.vnone := by
  unfold score_five
  rw [if_pos h]

/-- Witness for C8 on a 1-card input. -/
theorem C8_short_input_returns_none_witness :
    score_five (parse_cards ["Ah"]) = PyVal.vnone :=
  C8_short_input_returns_none (parse_cards ["Ah"]) (by decide)

/-- C8 counterexample to the claim as stated: on a 2-card input the source
returns the ordinary value `None` (no `InvalidHandSize` failure exists in
the code — `score_five` has no raise path at all). -/
theorem C8_counterexample : score_five (parse_cards ["Ah", "Kh"]) = PyVal.vnone := rfl

/-- C7 (amended): `apply_action` is a silent no-op for a seat whose player
has folded (`in_hand = false`) and for a raise with no amount
(`raise_to = None`); but `apply_action` performs NO turn check, so an
out-of-turn call on a live seat is applied normally (see the
counterexample). -/
theorem C7_invalid_actions_noop :
    (∀ (s : HandState) (seat : Nat) (act : String) (r : Option Int) (p : GamePlayer),
        s.players[seat]? = some p → p.in_hand = false → applyAction s seat act r = s) ∧
    (∀ (s : HandState) (seat : Nat), applyAction s seat "raise" none = s) := by
  constructor
  · intro s seat act r p hp hin
    unfold applyAction
    rw [hp]
    simp only
    rw [if_pos hin]
  · intro s seat
    unfold applyAction
    cases hp : s.players[seat]? with
    | none => rfl
    | some p =>
      simp only
      by_cases hin : p.in_hand = false
      · rw [if_pos hin]
      · rw [if_neg hin]
        rw [if_neg (by decide : ¬(pyLower "raise" = "fold"))]
        rw [if_neg (by decide : ¬(pyLower "raise" = "check"))]
        rw [if_pos (by decide : pyLower "raise" = "raise")]

/-- Witness for C7: acting on the already-folded seat 2 changes nothing,
and a raise without an amount changes nothing. -/
theorem C7_invalid_actions_noop_witness :
    applyAction (applyAction hand0 2 "fold" none) 2 "check" none
        = applyAction hand0 2 "fold" none ∧
      applyAction hand0 1 "raise" none = hand0 :=
  ⟨C7_invalid_actions_noop.1 (applyAction hand0 2 "fold" none) 2 "check" none
      ((applyAction hand0 2 "fold" none).players[2]?.getD default) (by rfl) (by rfl),
    C7_invalid_actions_noop.2 hand0 1⟩

/-- C7 counterexample: seat 1 is not the current actor of `hand0` (seat 0
is), yet `apply_action(1, "fold")` mutates the state — the folded flag of
seat 1 flips, so an out-of-turn action is NOT absorbed as a no-op. -/
theorem C7_counterexample :
    hand0.current_player_idx = 0 ∧
      in_hands hand0.players = [true, true, true] ∧
      in_hands (applyAction hand0 1 "fold" none).players = [true, false, true] :=
  ⟨rfl, rfl, rfl⟩

/-- Lemma: `resetOthers` preserves the seat count. -/
theorem resetOthers_length (seat : Nat) (j : Nat) (l : List GamePlayer) :
    (resetOthers seat j l).length = l.length := by
  have := congrArg List.length (resetOthers_stacks seat j l)
  simpa [stacksOf] using this

/-- On a live seat, `apply_action` with `"raise"` and an amount reduces to
`raiseUpd`. -/
theorem applyAction_raise_eq (s : HandState) (seat : Nat) (rt : Int) (p : GamePlayer)
    (hp : s.players[seat]? = some p) (hin : p.in_hand = true) :
    applyAction s seat "raise" (some rt) = raiseUpd s seat p rt := by
  unfold applyAction
  rw [hp]
  simp only
  rw [if_neg (by rw [hin]; exact fun h => Bool.noConfusion h)]
  rw [if_neg (by decide : ¬(pyLower "raise" = "fold"))]
  rw [if_neg (by decide : ¬(pyLower "raise" = "check"))]
  rw [if_pos (by decide : pyLower "raise" = "raise")]

/-- C6: a raise by an `in_hand` player whose resulting bet exceeds
`current_bet` sets `current_bet` to that bet, marks every other `in_hand`
player as not having acted, marks the raiser as having acted, and the
payment is `min(max(0, max(raise_to, current_bet) − bet), stack)` — the
requested amount clamped up to `current_bet` and the payment clamped to the
raiser's stack. -/
theorem C6_raise_reopens (s : HandState) (seat : Nat) (rt : Int) (p : GamePlayer)
    (hp : s.players[seat]? = some p) (hin : p.in_hand = true)
    (hgt : p.bet + min (max 0 (max rt s.current_bet - p.bet)) p.stack > s.current_bet) :
    (applyAction s seat "raise" (some rt)).current_bet
        = p.bet + min (max 0 (max rt s.current_bet - p.bet)) p.stack ∧
      (applyAction s seat "raise" (some rt)).pot
        = s.pot + min (max 0 (max rt s.current_bet - p.bet)) p.stack ∧
      (applyAction s seat "raise" (some rt)).players[seat]?
        = some { p with
            stack := p.stack - min (max 0 (max rt s.current_bet - p.bet)) p.stack,
            bet := p.bet + min (max 0 (max rt s.current_bet - p.bet)) p.stack,
            made_decision_this_round := true,
            last_action := some ("RAISE " ++
              toString (p.bet + min (max 0 (max rt s.current_bet - p.bet)) p.stack)) } ∧
      ∀ j, j ≠ seat → ∀ q, s.players[j]? = some q → q.in_hand = true →
        (applyAction s seat "raise" (some rt)).players[j]?
          = some { q with made_decision_this_round := false } := by
  have hi : seat < s.players.length := (List.getElem?_eq_some_iff.mp hp).1
  rw [applyAction_raise_eq s seat rt p hp hin]
  unfold raiseUpd
  simp only
  rw [if_pos hgt, if_pos hgt]
  refine ⟨by trivial, by trivial, ?_, ?_⟩
  · have hlen : seat < (resetOthers seat 0 (s.players.set seat
        { p with stack := p.stack - min (max 0 (max rt s.current_bet - p.bet)) p.stack,
                 bet := p.bet + min (max 0 (max rt s.current_bet - p.bet)) p.stack })).length := by
      rw [resetOthers_length]
      simpa using hi
    rw [List.getElem?_set_self hlen]
  · intro j hj q hq hqin
    rw [List.getElem?_set_ne (fun h => hj h.symm)]
    rw [resetOthers_getElem]
    rw [List.getElem?_set_ne (fun h => hj h.symm), hq]
    simp only [Option.map_some']
    rw [if_pos ⟨hqin, by omega⟩]

/-- Witness for C6: in `hand0` (current bet 50), seat 0 raises to 200;
`current_bet` becomes the raiser's new bet and the `in_hand` seat 1 has its
acted flag reset. -/
theorem C6_raise_reopens_witness :
    (applyAction hand0 0 "raise" (some 200)).current_bet
        = (hand0.players[0]?.getD default).bet +
            min (max 0 (max 200 hand0.current_bet - (hand0.players[0]?.getD default).bet))
              (hand0.players[0]?.getD default).stack ∧
      (applyAction hand0 0 "raise" (some 200)).players[1]?
        = some { hand0.players[1]?.getD default with made_decision_this_round := false } := by
  have h := C6_raise_reopens hand0 0 200 (hand0.players[0]?.getD default)
    (by rfl) (by rfl) (by decide)
  exact ⟨h.1, h.2.2.2 1 (by decide) (hand0.players[1]?.getD default) (by rfl) (by rfl)⟩

/-- Lemma: `reset_players_for_hand` preserves the seat count. -/
theorem reset_length (ps : List GamePlayer) :
    (reset_players_for_hand ps).length = ps.length := by
  simp [reset_players_for_hand]

/-- Lemma: `handBase` preserves the seat count. -/
theorem handBase_length (players : List GamePlayer) (button_pos : Nat) (big_blind : Int)
    (deck : List Nat) :
    (handBase players button_pos big_blind deck).players.length = players.length := by
  unfold handBase
  simp only
  rw [reset_length, setPlayerName_length, setPlayerName_length, setPlayerName_length]

/-- Lemma: `post_blinds` preserves the seat count. -/
theorem post_blinds_length (s : HandState) :
    (post_blinds s).players.length = s.players.length := by
  unfold post_blinds
  cases hsb : s.players[s.sb_pos]? with
  | none => rfl
  | some sb_p =>
    cases hbb : s.players[s.bb_pos]? with
    | none => rfl
    | some bb_p => simp only [chargePlayer_length]

/-- Lemma: `post_blinds` never changes who is in the hand. -/
theorem post_blinds_in_hands (s : HandState) :
    in_hands (post_blinds s).players = in_hands s.players := by
  unfold post_blinds
  cases hsb : s.players[s.sb_pos]? with
  | none => rfl
  | some sb_p =>
    cases hbb : s.players[s.bb_pos]? with
    | none => rfl
    | some bb_p => simp only [chargePlayer_in_hands]

/-- Facts about a freshly constructed hand: every bet is dominated by
`current_bet`, every seat is `in_hand`, and `current_bet` is itself one of
the (in-hand) bets — i.e. it equals their maximum. -/
theorem mkHand_current_bet (players : List GamePlayer) (button_pos : Nat) (big_blind : Int)
    (deck : List Nat) (h : HandState)
    (hm : mkHand players button_pos big_blind deck = some h) :
    (∀ x ∈ bets h.players, x ≤ h.current_bet) ∧
      in_hands h.players = List.replicate players.length true ∧
      h.current_bet ∈ bets h.players := by
  unfold mkHand at hm
  by_cases hne : players.length = 0
  · rw [if_pos hne] at hm; exact absurd hm (by simp)
  · rw [if_neg hne] at hm
    rw [Option.map_eq_some'] at hm
    obtain ⟨pd, hd, hh⟩ := hm
    have hproj := dealHole_proj _ _ pd.1 pd.2 (by rw [hd])
    have hbets : bets pd.1
        = bets (post_blinds (handBase players button_pos big_blind deck)).players :=
      hproj.1
    have hinh : in_hands pd.1 = List.replicate players.length true := by
      rw [hproj.2.2.1, post_blinds_in_hands, handBase_in_hands]
    have hnonempty :
        bets (post_blinds (handBase players button_pos big_blind deck)).players ≠ [] := by
      intro hcon
      have := congrArg List.length hcon
      simp only [bets, List.length_map, post_blinds_length, handBase_length,
        List.length_nil] at this
      exact hne this
    rw [← hh]
    refine ⟨?_, ?_, ?_⟩
    · intro x hx
      simp only at hx ⊢
      rw [hbets] at hx
      exact le_pyMax _ x hx
    · simpa using hinh
    · simp only
      rw [hbets]
      exact pyMax_mem _ hnonempty

/-- Folding keeps every bet at or below `current_bet`. -/
theorem foldUpd_bets_le (s : HandState) (i : Nat) (p : GamePlayer)
    (hp : s.players[i]? = some p)
    (hinv : ∀ x ∈ bets s.players, x ≤ s.current_bet) :
    ∀ x ∈ bets (foldUpd s i p).players, x ≤ (foldUpd s i p).current_bet := by
  unfold foldUpd
  simp only
  intro x hx
  have hq : ({ p with in_hand := false, made_decision_this_round := true, last_action := some "FOLD" } : GamePlayer).bet = p.bet := rfl
  rw [bets_set_same s.players i p _ hp hq] at hx
  exact hinv x hx

/-- Checking/calling keeps every bet at or below `current_bet` (the caller
pays at most up to the current bet). -/
theorem checkUpd_bets_le (s : HandState) (i : Nat) (p : GamePlayer)
    (hp : s.players[i]? = some p)
    (hinv : ∀ x ∈ bets s.players, x ≤ s.current_bet) :
    ∀ x ∈ bets (checkUpd s i p).players, x ≤ (checkUpd s i p).current_bet := by
  unfold checkUpd
  simp only
  intro x hx
  rw [bets_set] at hx
  rcases List.mem_or_eq_of_mem_set hx with hmem | heq
  · exact hinv x hmem
  · have hple : p.bet ≤ s.current_bet :=
      hinv p.bet (List.mem_map.mpr ⟨p, List.getElem?_mem hp, rfl⟩)
    have h1 : min (max 0 (s.current_bet - p.bet)) p.stack ≤ max 0 (s.current_bet - p.bet) :=
      min_le_left _ _
    have h2 : max 0 (s.current_bet - p.bet) = s.current_bet - p.bet :=
      max_eq_right (by omega)
    subst heq
    simp only
    omega

/-- Raising keeps every bet at or below the (possibly updated)
`current_bet`. -/
theorem raiseUpd_bets_le (s : HandState) (i : Nat) (p : GamePlayer) (rt : Int)
    (hp : s.players[i]? = some p)
    (hinv : ∀ x ∈ bets s.players, x ≤ s.current_bet) :
    ∀ x ∈ bets (raiseUpd s i p rt).players, x ≤ (raiseUpd s i p rt).current_bet := by
  unfold raiseUpd
  simp only
  split
  · rename_i hc
    intro x hx
    rw [bets_set, resetOthers_bets, bets_set] at hx
    rw [List.set_set] at hx
    rcases List.mem_or_eq_of_mem_set hx with hmem | heq
    · exact le_trans (hinv x hmem) (le_of_lt hc)
    · subst heq
      exact le_refl _
  · rename_i hc
    intro x hx
    rw [bets_set, bets_set, List.set_set] at hx
    rcases List.mem_or_eq_of_mem_set hx with hmem | heq
    · exact hinv x hmem
    · subst heq
      exact le_of_not_lt hc

/-- Lemma: `apply_action` preserves the bound `bet ≤ current_bet` over all seats,
for every seat index, action string and raise amount. -/
theorem applyAction_bets_le (s : HandState) (seat : Nat) (act : String) (r : Option Int)
    (hinv : ∀ x ∈ bets s.players, x ≤ s.current_bet) :
    ∀ x ∈ bets (applyAction s seat act r).players,
      x ≤ (applyAction s seat act r).current_bet := by
  unfold applyAction
  cases hp : s.players[seat]? with
  | none => exact hinv
  | some p =>
    simp only
    by_cases hin : p.in_hand = false
    · rw [if_pos hin]; exact hinv
    · rw [if_neg hin]
      by_cases h1 : pyLower act = "fold"
      · rw [if_pos h1]; exact foldUpd_bets_le s seat p hp hinv
      · rw [if_neg h1]
        by_cases h2 : pyLower act = "check"
        · rw [if_pos h2]; exact checkUpd_bets_le s seat p hp hinv
        · rw [if_neg h2]
          by_cases h3 : pyLower act = "raise"
          · rw [if_pos h3]
            cases r with
            | none => exact hinv
            | some rt => exact raiseUpd_bets_le s seat p rt hp hinv
          · rw [if_neg h3]; exact hinv

/-- After `start_new_betting_round` every bet is 0 and `current_bet` is 0. -/
theorem start_round_state (s : HandState) :
    bets (start_new_betting_round s).players = List.replicate s.players.length 0 ∧
      (start_new_betting_round s).current_bet = 0 := by
  constructor
  · unfold start_new_betting_round
    simp only [bets, List.map_map]
    exact List.map_const' s.players 0
  · rfl

/-- The hand states reachable through the engine API: a constructed hand,
followed by any interleaving of `apply_action` calls and
`start_new_betting_round` calls. -/
inductive ReachableHand : HandState → Prop where
  | init : ∀ (players : List GamePlayer) (button_pos : Nat) (big_blind : Int)
      (deck : List Nat) (h : HandState),
      mkHand players button_pos big_blind deck = some h → ReachableHand h
  | act : ∀ (s : HandState) (seat : Nat) (action : String) (r : Option Int),
      ReachableHand s → ReachableHand (applyAction s seat action r)
  | round : ∀ (s : HandState), ReachableHand s → ReachableHand (start_new_betting_round s)

/-- C4 (amended): at every reachable hand state `current_bet` is an upper
bound of all bets; it EQUALS the maximum of the `in_hand` bets after
construction (it is one of them and dominates them) and trivially after
every `start_new_betting_round` (everything is 0), but after an
`apply_action` the equality can fail (see the counterexample: a fold by the
sole maximal bettor). -/
theorem C4_current_bet_bound :
    (∀ s, ReachableHand s → ∀ x ∈ bets s.players, x ≤ s.current_bet) ∧
      (∀ (players : List GamePlayer) (button_pos : Nat) (big_blind : Int)
          (deck : List Nat) (h : HandState),
          mkHand players button_pos big_blind deck = some h →
            h.current_bet ∈ inHandBets h ∧ ∀ x ∈ inHandBets h, x ≤ h.current_bet) ∧
      (∀ s, bets (start_new_betting_round s).players = List.replicate s.players.length 0 ∧
          (start_new_betting_round s).current_bet = 0) := by
  refine ⟨?_, ?_, start_round_state⟩
  · intro s hr
    induction hr with
    | init players button_pos big_blind deck h hm =>
      exact (mkHand_current_bet players button_pos big_blind deck h hm).1
    | act s seat action r hr ih => exact applyAction_bets_le s seat action r ih
    | round s hr ih =>
      intro x hx
      rw [(start_round_state s).1] at hx
      rw [(start_round_state s).2]
      exact le_of_eq (List.eq_of_mem_replicate hx)
  · intro players button_pos big_blind deck h hm
    obtain ⟨hle, hinh, hmem⟩ := mkHand_current_bet players button_pos big_blind deck h hm
    have hfil : h.players.filter (fun p => p.in_hand) = h.players := by
      rw [List.filter_eq_self]
      intro p hp
      have : p.in_hand ∈ in_hands h.players := List.mem_map.mpr ⟨p, hp, rfl⟩
      rw [hinh] at this
      simp [List.eq_of_mem_replicate this]
    have heq : inHandBets h = bets h.players := by
      unfold inHandBets
      rw [hfil]
      rfl
    rw [heq]
    exact ⟨hmem, hle⟩

/-- Witness for C4 at a concrete constructed hand: `current_bet` of `hand0`
is one of the in-hand bets (it equals their maximum). -/
theorem C4_current_bet_bound_witness : hand0.current_bet ∈ inHandBets hand0 :=
  (C4_current_bet_bound.2.1 players3 0 50 [0, 1, 2, 3, 4, 5] hand0 rfl).1

/-- C4 counterexample: after the (reachable) fold of the big blind in
`hand0`, `current_bet` is still 50 but the in-hand bets are `[0, 25]`, so
`current_bet` is NOT the maximum of the in-hand bets. -/
theorem C4_counterexample :
    (applyAction hand0 2 "fold" none).current_bet = 50 ∧
      inHandBets (applyAction hand0 2 "fold" none) = [0, 25] ∧
      (50 : Int) ∉ ([0, 25] : List Int) :=
  ⟨rfl, rfl, by decide⟩

/-- Lemma: `post_blinds` does not touch the deck. -/
theorem post_blinds_deck (s : HandState) : (post_blinds s).deck = s.deck := by
  unfold post_blinds
  cases hsb : s.players[s.sb_pos]? with
  | none => rfl
  | some sb_p =>
    cases hbb : s.players[s.bb_pos]? with
    | none => rfl
    | some bb_p => rfl

/-- With at least two cards per seat, hand construction succeeds and leaves
exactly the surplus cards in the deck. -/
theorem mkHand_isSome_deck (players : List GamePlayer) (button_pos : Nat) (big_blind : Int)
    (deck : List Nat) (hne : players.length ≠ 0) (hlen : 2 * players.length ≤ deck.length) :
    ∃ h, mkHand players button_pos big_blind deck = some h ∧
      h.deck.length + 2 * players.length = deck.length := by
  unfold mkHand
  rw [if_neg hne]
  simp only
  have hplen : (post_blinds (handBase players button_pos big_blind deck)).players.length
      = players.length := by
    rw [post_blinds_length, handBase_length]
  have hdeck : (post_blinds (handBase players button_pos big_blind deck)).deck = deck := by
    rw [post_blinds_deck]
    rfl
  rw [hdeck]
  obtain ⟨ps', d', hd, hdl⟩ := dealHole_isSome
    (post_blinds (handBase players button_pos big_blind deck)).players deck
    (by rw [hplen]; exact hlen)
  rw [hd]
  simp only [Option.map_some']
  refine ⟨_, rfl, ?_⟩
  show d'.length + 2 * players.length = deck.length
  rw [hplen] at hdl
  exact hdl

/-- With at least three cards left, the flop deals and consumes three. -/
theorem deal_flop_isSome (s : HandState) (h : 3 ≤ s.deck.length) :
    ∃ t, deal_flop s = some t ∧ t.deck.length + 3 = s.deck.length := by
  have h1 : s.deck ≠ [] := by
    intro hn; rw [hn] at h; simp at h
  obtain ⟨c1, d1, e1⟩ := deckPop_isSome _ h1
  have l1 := deckPop_length _ _ _ e1
  have h2 : d1 ≠ [] := by
    intro hn; subst hn; simp at l1; omega
  obtain ⟨c2, d2, e2⟩ := deckPop_isSome _ h2
  have l2 := deckPop_length _ _ _ e2
  have h3 : d2 ≠ [] := by
    intro hn; subst hn; simp at l2; omega
  obtain ⟨c3, d3, e3⟩ := deckPop_isSome _ h3
  have l3 := deckPop_length _ _ _ e3
  unfold deal_flop
  rw [e1]
  simp only [Option.some_bind]
  rw [e2]
  simp only [Option.some_bind]
  rw [e3]
  simp only [Option.map_some']
  refine ⟨_, rfl, ?_⟩
  show d3.length + 3 = s.deck.length
  omega

/-- With a card left, the turn deals and consumes one. -/
theorem deal_turn_isSome (s : HandState) (h : 1 ≤ s.deck.length) :
    ∃ t, deal_turn s = some t ∧ t.deck.length + 1 = s.deck.length := by
  have h1 : s.deck ≠ [] := by
    intro hn; rw [hn] at h; simp at h
  obtain ⟨c1, d1, e1⟩ := deckPop_isSome _ h1
  have l1 := deckPop_length _ _ _ e1
  unfold deal_turn
  rw [e1]
  simp only [Option.map_some']
  refine ⟨_, rfl, ?_⟩
  show d1.length + 1 = s.deck.length
  omega

/-- With a card left, the river deals and consumes one. -/
theorem deal_river_isSome (s : HandState) (h : 1 ≤ s.deck.length) :
    ∃ t, deal_river s = some t ∧ t.deck.length + 1 = s.deck.length := by
  have h1 : s.deck ≠ [] := by
    intro hn; rw [hn] at h; simp at h
  obtain ⟨c1, d1, e1⟩ := deckPop_isSome _ h1
  have l1 := deckPop_length _ _ _ e1
  unfold deal_river
  rw [e1]
  simp only [Option.map_some']
  refine ⟨_, rfl, ?_⟩
  show d1.length + 1 = s.deck.length
  omega

/-- All dealing a hand ever does: two hole cards per seat at construction,
then flop, turn and river. -/
def fullDeal (players : List GamePlayer) (button_pos : Nat) (big_blind : Int)
    (deck : List Nat) : Option HandState :=
  (((mkHand players button_pos big_blind deck).bind deal_flop).bind deal_turn).bind deal_river

/-- C9 (amended): whenever `2*seats + 5 ≤ deck size` (with a standard
52-card deck: seats ≤ 23), the dealing performed during a hand — two hole
cards per seat plus the five board cards — never pops an empty deck.  (The
source itself performs NO such validation at session construction; see the
counterexample.) -/
theorem C9_dealing_no_exhaustion (players : List GamePlayer) (button_pos : Nat)
    (big_blind : Int) (deck : List Nat) (hne : players ≠ [])
    (hlen : 2 * players.length + 5 ≤ deck.length) :
    (fullDeal players button_pos big_blind deck).isSome = true := by
  obtain ⟨h1, e1, l1⟩ := mkHand_isSome_deck players button_pos big_blind deck
    (fun hc => hne (List.length_eq_zero.mp hc)) (by omega)
  obtain ⟨h2, e2, l2⟩ := deal_flop_isSome h1 (by omega)
  obtain ⟨h3, e3, l3⟩ := deal_turn_isSome h2 (by omega)
  obtain ⟨h4, e4, l4⟩ := deal_river_isSome h3 (by omega)
  unfold fullDeal
  rw [e1]
  simp only [Option.some_bind]
  rw [e2]
  simp only [Option.some_bind]
  rw [e3]
  simp only [Option.some_bind]
  rw [e4]
  rfl

/-- A single fresh seat, used as a minimal witness table. -/
def players1 : List GamePlayer := [{ name := "Seat 1 (Me)", stack := 1500 }]

/-- Witness for C9: one seat and a 7-card deck satisfy `2*1+5 ≤ 7`, and the
whole hand deals without exhausting the deck. -/
theorem C9_dealing_no_exhaustion_witness :
    (fullDeal players1 0 50 (List.range 7)).isSome = true :=
  C9_dealing_no_exhaustion players1 0 50 (List.range 7) (by decide) (by decide)

/-- C9 counterexample: `PokerGame.__init__` accepts 24 seats without any
validation (2*24+5 = 53 > 52), the hand construction and the flop and turn
still succeed on a 52-card deck, and the river deal then pops an EMPTY deck
(the `IndexError` that the spec calls `DeckExhausted`). -/
theorem C9_counterexample :
    (mkGame 24 50 0).n_seats = 24 ∧
      ((((mkHand (mkGame 24 50 0).players 0 50 (List.range 52)).bind deal_flop).bind
          deal_turn).isSome = true) ∧
      fullDeal (mkGame 24 50 0).players 0 50 (List.range 52) = none :=
  ⟨rfl, rfl, rfl⟩

/-- Charging a player no more than that player's current stack keeps all
stacks non-negative. -/
theorem chargePlayer_nonneg (l : List GamePlayer) (i : Nat) (amt : Int) (p : GamePlayer)
    (hp : l[i]? = some p) (hamt : amt ≤ p.stack)
    (hall : ∀ x ∈ stacksOf l, 0 ≤ x) :
    ∀ x ∈ stacksOf (chargePlayer l i amt), 0 ≤ x := by
  unfold chargePlayer
  rw [hp]
  intro x hx
  rw [stacksOf_set] at hx
  rcases List.mem_or_eq_of_mem_set hx with hmem | heq
  · exact hall x hmem
  · subst heq
    show (0 : Int) ≤ p.stack - amt
    omega

/-- A seat other than the charged one is untouched by `chargePlayer`. -/
theorem chargePlayer_getElem_ne (l : List GamePlayer) (i j : Nat) (amt : Int) (hij : i ≠ j) :
    (chargePlayer l i amt)[j]? = l[j]? := by
  unfold chargePlayer
  cases hp : l[i]? with
  | none => rfl
  | some p => exact List.getElem?_set_ne hij

/-- Lemma: `post_blinds` keeps all stacks non-negative whenever the small- and
big-blind seats are distinct (each blind is clamped to that seat's stack). -/
theorem post_blinds_nonneg (s : HandState) (hpos : s.sb_pos ≠ s.bb_pos)
    (hall : ∀ x ∈ stacksOf s.players, 0 ≤ x) :
    ∀ x ∈ stacksOf (post_blinds s).players, 0 ≤ x := by
  unfold post_blinds
  cases hsb : s.players[s.sb_pos]? with
  | none => exact hall
  | some sb_p =>
    cases hbb : s.players[s.bb_pos]? with
    | none => exact hall
    | some bb_p =>
      intro x hx
      have h1 : ∀ x ∈ stacksOf (chargePlayer s.players s.sb_pos (min s.sb_amount sb_p.stack)),
          0 ≤ x :=
        chargePlayer_nonneg s.players s.sb_pos _ sb_p hsb (min_le_right _ _) hall
      have hq : (chargePlayer s.players s.sb_pos (min s.sb_amount sb_p.stack))[s.bb_pos]?
          = some bb_p := by
        rw [chargePlayer_getElem_ne s.players s.sb_pos s.bb_pos _ hpos]
        exact hbb
      exact chargePlayer_nonneg _ s.bb_pos _ bb_p hq (min_le_right _ _) h1 x hx

/-- Folding keeps all stacks non-negative (no chips move). -/
theorem foldUpd_nonneg (s : HandState) (i : Nat) (p : GamePlayer)
    (hp : s.players[i]? = some p) (hall : ∀ x ∈ stacksOf s.players, 0 ≤ x) :
    ∀ x ∈ stacksOf (foldUpd s i p).players, 0 ≤ x := by
  unfold foldUpd
  simp only
  intro x hx
  have hq : ({ p with in_hand := false, made_decision_this_round := true, last_action := some "FOLD" } : GamePlayer).stack = p.stack := rfl
  rw [stacksOf_set_same s.players i p _ hp hq] at hx
  exact hall x hx

/-- Checking/calling keeps all stacks non-negative: the payment is clamped
to the caller's stack. -/
theorem checkUpd_nonneg (s : HandState) (i : Nat) (p : GamePlayer)
    (hp : s.players[i]? = some p) (hall : ∀ x ∈ stacksOf s.players, 0 ≤ x) :
    ∀ x ∈ stacksOf (checkUpd s i p).players, 0 ≤ x := by
  unfold checkUpd
  simp only
  intro x hx
  rw [stacksOf_set] at hx
  rcases List.mem_or_eq_of_mem_set hx with hmem | heq
  · exact hall x hmem
  · subst heq
    show (0 : Int) ≤ p.stack - min (max 0 (s.current_bet - p.bet)) p.stack
    have := min_le_right (max 0 (s.current_bet - p.bet)) p.stack
    omega

/-- Raising keeps all stacks non-negative: the payment is clamped to the
raiser's stack. -/
theorem raiseUpd_nonneg (s : HandState) (i : Nat) (p : GamePlayer) (rt : Int)
    (hp : s.players[i]? = some p) (hall : ∀ x ∈ stacksOf s.players, 0 ≤ x) :
    ∀ x ∈ stacksOf (raiseUpd s i p rt).players, 0 ≤ x := by
  unfold raiseUpd
  simp only
  have hkey : (0 : Int) ≤ p.stack - min (max 0 (max rt s.current_bet - p.bet)) p.stack := by
    have := min_le_right (max 0 (max rt s.current_bet - p.bet)) p.stack
    omega
  split
  · intro x hx
    rw [stacksOf_set, resetOthers_stacks, stacksOf_set, List.set_set] at hx
    rcases List.mem_or_eq_of_mem_set hx with hmem | heq
    · exact hall x hmem
    · subst heq
      exact hkey
  · intro x hx
    rw [stacksOf_set, stacksOf_set, List.set_set] at hx
    rcases List.mem_or_eq_of_mem_set hx with hmem | heq
    · exact hall x hmem
    · subst heq
      exact hkey

/-- C10 (amended): `post_blinds` keeps every non-negative stack
non-negative PROVIDED the small- and big-blind seats differ (true for every
hand with at least two seats); in the degenerate 1-seat hand both blinds
are charged to the same player against its pre-blind stack and the stack
can go negative (see the counterexample).  `apply_action` always preserves
non-negativity: every call or raise payment is clamped to the acting
player's stack. -/
theorem C10_stacks_nonneg :
    (∀ s : HandState, s.sb_pos ≠ s.bb_pos → (∀ x ∈ stacksOf s.players, 0 ≤ x) →
        ∀ x ∈ stacksOf (post_blinds s).players, 0 ≤ x) ∧
      (∀ (s : HandState) (seat : Nat) (act : String) (r : Option Int),
        (∀ x ∈ stacksOf s.players, 0 ≤ x) →
          ∀ x ∈ stacksOf (applyAction s seat act r).players, 0 ≤ x) := by
  refine ⟨post_blinds_nonneg, ?_⟩
  intro s seat act r hall
  unfold applyAction
  cases hp : s.players[seat]? with
  | none => exact hall
  | some p =>
    simp only
    by_cases hin : p.in_hand = false
    · rw [if_pos hin]; exact hall
    · rw [if_neg hin]
      by_cases h1 : pyLower act = "fold"
      · rw [if_pos h1]; exact foldUpd_nonneg s seat p hp hall
      · rw [if_neg h1]
        by_cases h2 : pyLower act = "check"
        · rw [if_pos h2]; exact checkUpd_nonneg s seat p hp hall
        · rw [if_neg h2]
          by_cases h3 : pyLower act = "raise"
          · rw [if_pos h3]
            cases r with
            | none => exact hall
            | some rt => exact raiseUpd_nonneg s seat p rt hp hall
          · rw [if_neg h3]; exact hall

/-- Witness for C10: seat 0 of `hand0` calls the big blind; its stack stays
non-negative. -/
theorem C10_stacks_nonneg_witness :
    (0 : Int) ≤ (stacksOf (applyAction hand0 0 "check" none).players).headD 0 := by
  have h := C10_stacks_nonneg.2 hand0 0 "check" none (by decide)
  exact h _ (by decide)

/-- A single seat with a short stack of 60 chips. -/
def playersPoor : List GamePlayer := [{ name := "Seat 1 (Me)", stack := 60 }]

/-- C10 counterexample: in a 1-seat hand (`sb_pos = bb_pos = 0`), a 60-chip
stack posts both blinds (25 and then 50, the second clamped against the
PRE-blind stack) and ends NEGATIVE at -15, despite both clamps. -/
theorem C10_counterexample :
    (mkHand playersPoor 0 50 [0, 1]).map (fun h => stacksOf h.players) = some [-15] ∧
      ¬(0 : Int) ≤ -15 :=
  ⟨rfl, by decide⟩

/-- C1: what the source actually returns on the spec's two listed worked
cases.  For `["Th","Ts","5c","9h","9s"]` the two-pair tiebreak embeds the
`(rank, count)` pair produced by the buggy `two_pair` (so
`(2, ((10, 2), 9, 9, 5))`, not the listed `(2, (10, 9, 5))`), and for
`["Th","9h","8h","7h","6h"]` the straight-flush branch returns the plain
int `10` (Python `(straight)` is not a 1-tuple), so `(8, 10)`, not the
listed `(8, (10,))`. -/
theorem C1_worked_cases_actual :
    score_five (parse_cards ["Th", "Ts", "5c", "9h", "9s"])
        = PyVal.vtup [PyVal.vint 2, PyVal.vtup
            [PyVal.vtup [PyVal.vint 10, PyVal.vint 2], PyVal.vint 9, PyVal.vint 9,
              PyVal.vint 5]] ∧
      score_five (parse_cards ["Th", "9h", "8h", "7h", "6h"])
        = PyVal.vtup [PyVal.vint 8, PyVal.vint 10] :=
  ⟨rfl, rfl⟩

/-- C2: on a full house whose pair outranks the trips, the source returns
the two ranks sorted descending — `(6, (10, 9))` for nines full of tens —
instead of the claimed trips-first `(6, (9, 10))`: `full_house` first sorts
by count descending (trips first) and then re-sorts the two ranks by value,
destroying the trips-first order. -/
theorem C2_full_house_actual :
    score_five (parse_cards ["9h", "9s", "9c", "Th", "Ts"])
        = PyVal.vtup [PyVal.vint 6, PyVal.vtup [PyVal.vint 10, PyVal.vint 9]] :=
  rfl
